import Mathlib

/-!
# Verification of `synthetics/aws.go`

A shallow embedding of the helper functions of `synthetics/aws.go`
(error classification, bounded retry wrappers, file loading and the
string-list conversions) together with the properties proved about them.

Conventions of the embedding:

* A Go `error` value is `Option GoError`: `none` is the `nil` error.  A
  non-nil error is a tree of values: a value may have an `Unwrap() error`
  method, an `Unwrap() []error` method (as the results of `errors.Join` and of
  `fmt.Errorf` with several `%w` have), or neither; each value records which of
  the interfaces `awserr.Error` and `awserr.RequestFailure` its dynamic type
  implements (`awserr.RequestFailure` embeds `awserr.Error`) and what its own
  `As` method does, when it has one.  Methods of error values are total and
  free of side effects, and an `As` method follows the contract of package
  `errors`: when it reports true it has stored a value of the target type.
  `errors.As` is the one of Go 1.20 and later, which also searches the
  elements of an `Unwrap() []error`.
* `resource.Retry` is the one of `terraform-plugin-sdk/helper/resource`: it
  runs the closure in the refresh loop of `WaitForState` with a back-off
  between calls, stops starting calls at the timeout, and waits for the call in
  flight for a grace period of 30 s at most.  A run is a sequence of events on
  one clock; the result and the duration of the `k`-th call of `f` are given.
* Go strings are Lean strings, that is, valid UTF-8 text; `strings.Contains`
  scans the characters (on valid UTF-8 the byte-wise and the character-wise
  substring tests agree).
* `time.Duration` is a natural number of nanoseconds.
* A Go `*string` is `Option String` (`none` is the nil pointer); pointer
  identity is not modelled.
-/

namespace Synthetics

/-! ## Errors -/

/-- Which AWS error interfaces the dynamic type of an error value implements,
with the values its methods return. -/
inductive ErrKind where
  /-- Implements neither `awserr.Error` nor `awserr.RequestFailure`. -/
  | other
  /-- Implements `awserr.Error` only: `Code()` and `Message()`. -/
  | awsError (code message : String)
  /-- Implements `awserr.RequestFailure` (hence `awserr.Error` too):
  `Code()`, `Message()`, `StatusCode()` and `RequestID()`. -/
  | requestFailure (code message : String) (statusCode : Int) (requestID : String)
  deriving DecidableEq, Repr

/-- What the method `As(target any) bool` of an error value does, for the two
target types used in this file: `awsError` is the `Code()` and `Message()` of
the value it stores in a `*awserr.Error` target (`none` when it reports false
for that target), `requestFailure` the `StatusCode()` of the value it stores in
a `*awserr.RequestFailure` target. -/
structure AsMethod where
  awsError : Option (String × String)
  requestFailure : Option Int
  deriving DecidableEq, Repr

/-- One error value of a tree: the text of `Error()`, the interfaces of its
dynamic type, and its `As` method when the type has one. -/
structure ErrNode where
  text : String
  kind : ErrKind
  asMethod : Option AsMethod
  deriving DecidableEq, Repr

mutual
/-- A non-nil Go error: a value without an `Unwrap` method (or whose
`Unwrap() error` returns nil), a value whose `Unwrap() error` returns another
non-nil error, or a value with an `Unwrap() []error` method. -/
inductive GoError where
  | leaf (n : ErrNode)
  | wrap (n : ErrNode) (inner : GoError)
  | join (n : ErrNode) (errs : GoErrors)
  deriving DecidableEq, Repr
/-- The slice returned by an `Unwrap() []error` method; `nilElem` is an element
that is the nil error. -/
inductive GoErrors where
  | nil
  | nilElem (rest : GoErrors)
  | cons (e : GoError) (rest : GoErrors)
  deriving DecidableEq, Repr
end

/-- The Go type `error`; `none` is `nil`. -/
abbrev Error := Option GoError

/-- The error value itself, without what it wraps. -/
def GoError.head : GoError → ErrNode
  | .leaf n => n
  | .wrap n _ => n
  | .join n _ => n

mutual
/-- The values of an error tree in the order `errors.As` and `errors.Is` visit
them: a value before what it unwraps, the elements of a slice from first to
last. -/
def GoError.preorder : GoError → List ErrNode
  | .leaf n => [n]
  | .wrap n inner => n :: inner.preorder
  | .join n errs => n :: errs.preorder
/-- The values of the trees of a slice of errors, in order. -/
def GoErrors.preorder : GoErrors → List ErrNode
  | .nil => []
  | .nilElem rest => rest.preorder
  | .cons e rest => e.preorder ++ rest.preorder
end

/-- The type assertion `err.(awserr.Error)` on one value: the pair
`(Code(), Message())` when the dynamic type implements the interface. -/
def asAwsError : ErrNode → Option (String × String)
  | ⟨_, .other, _⟩ => none
  | ⟨_, .awsError c m, _⟩ => some (c, m)
  | ⟨_, .requestFailure c m _ _, _⟩ => some (c, m)

/-- The type assertion `err.(awserr.RequestFailure)` on one value: the
`StatusCode()` when the dynamic type implements the interface. -/
def asRequestFailure : ErrNode → Option Int
  | ⟨_, .other, _⟩ => none
  | ⟨_, .awsError _ _, _⟩ => none
  | ⟨_, .requestFailure _ _ sc _, _⟩ => some sc

/-- What `errors.As` with a `*awserr.Error` target does at one value: the value
itself is stored when its type is assignable to the target type; otherwise its
`As` method is called, when it has one. -/
def matchAwsError (n : ErrNode) : Option (String × String) :=
  match asAwsError n with
  | some a => some a
  | none =>
    match n.asMethod with
    | some m => m.awsError
    | none => none

/-- What `errors.As` with a `*awserr.RequestFailure` target does at one
value. -/
def matchRequestFailure (n : ErrNode) : Option Int :=
  match asRequestFailure n with
  | some a => some a
  | none =>
    match n.asMethod with
    | some m => m.requestFailure
    | none => none

mutual
/-- The function `as` behind `errors.As(err, &target)`, with what happens at one
value given as `found`: the first value at which the target is set ends the
search; a value with `Unwrap() error` is followed, the elements of an
`Unwrap() []error` are searched in order, nil elements skipped. -/
def errorsAsLoop {α : Type} (found : ErrNode → Option α) : GoError → Option α
  | .leaf n => found n
  | .wrap n inner =>
    match found n with
    | some a => some a
    | none => errorsAsLoop found inner
  | .join n errs =>
    match found n with
    | some a => some a
    | none => errorsAsRange found errs
/-- The loop `for _, err := range x.Unwrap()` of `as`. -/
def errorsAsRange {α : Type} (found : ErrNode → Option α) : GoErrors → Option α
  | .nil => none
  | .nilElem rest => errorsAsRange found rest
  | .cons e rest =>
    match errorsAsLoop found e with
    | some a => some a
    | none => errorsAsRange found rest
end

/-- The call `errors.As(err, &target)`: false on a nil error. -/
def errorsAs {α : Type} (found : ErrNode → Option α) : Error → Option α
  | none => none
  | some e => errorsAsLoop found e

/-! ## Strings -/

/-- Whether `s` starts with `p` (`strings.HasPrefix` on characters). -/
def hasPrefix : List Char → List Char → Bool
  | _, [] => true
  | [], _ :: _ => false
  | c :: s, d :: p => c == d && hasPrefix s p

/-- Scan for `sub` at every offset of `s`. -/
def containsChars : List Char → List Char → Bool
  | [], sub => hasPrefix [] sub
  | c :: s, sub => hasPrefix (c :: s) sub || containsChars s sub

/-- The call `strings.Contains(s, substr)`. -/
def stringsContains (s substr : String) : Bool :=
  containsChars s.data substr.data

/-! ## `isAWSErr` and `isAWSErrRequestFailureStatusCode` -/

/-- The function `isAWSErr(err, code, message)`. -/
def isAWSErr (err : Error) (code message : String) : Bool :=
  match errorsAs matchAwsError err with
  | some (c, m) => c == code && stringsContains m message
  | none => false

/-- The function `isAWSErrRequestFailureStatusCode(err, statusCode)`. -/
def isAWSErrRequestFailureStatusCode (err : Error) (statusCode : Int) : Bool :=
  match errorsAs matchRequestFailure err with
  | some sc => sc == statusCode
  | none => false

/-! ## Values of type `interface{}` -/

/-- A value of the empty interface type, by dynamic type. -/
inductive GoValue where
  /-- The nil interface value. -/
  | nil
  | bool (b : Bool)
  | int (i : Int)
  | str (s : String)
  /-- A value of any other dynamic type, named by `typeName`. -/
  | other (typeName : String)
  deriving DecidableEq, Repr

/-- The type assertion `v.(string)`. -/
def asString : GoValue → Option String
  | .str s => some s
  | _ => none

/-! ## Retrying -/

/-- The struct `resource.RetryError`. -/
structure RetryError where
  Err : Error
  Retryable : Bool
  deriving DecidableEq, Repr

/-- The helper `resource.RetryableError(err)`: nil for a nil error. -/
def RetryableError : Error → Option RetryError
  | none => none
  | some e => some ⟨some e, true⟩

/-- The helper `resource.NonRetryableError(err)`: nil for a nil error. -/
def NonRetryableError : Error → Option RetryError
  | none => none
  | some e => some ⟨some e, false⟩

/-- The constant `time.Millisecond`, in nanoseconds. -/
def Millisecond : Nat := 1000000

/-- The constant `time.Second`, in nanoseconds. -/
def Second : Nat := 1000000000

/-- The constant `time.Minute`, in nanoseconds. -/
def Minute : Nat := 60 * 1000000000

/-- The variable `refreshGracePeriod` of `helper/resource`: how long
`WaitForState` still waits, once the timeout has passed, for the call in
flight. -/
def refreshGracePeriod : Nat := 30 * Second

/-- The field `MinTimeout` that `resource.Retry` sets. -/
def retryMinTimeout : Nat := 500 * Millisecond

/-- The update of the variable `wait` in the refresh loop of `WaitForState`
over one round that ends in a retryable error: a first round without wait sets
it to 100 ms, it is doubled, and then bounded below by `MinTimeout` and above by
ten seconds. -/
def nextWait (wait : Nat) : Nat :=
  let w := (if wait = 0 then 100 * Millisecond else wait) * 2
  if w < retryMinTimeout then retryMinTimeout
  else if 10 * Second < w then 10 * Second
  else w

/-- The text of `Duration.String()` for a duration of whole seconds (which the
timeouts used in this file are); other durations are written in nanoseconds. -/
def durationString (d : Nat) : String :=
  if d % Second = 0 then
    let s := d / Second
    if 3600 ≤ s then
      toString (s / 3600) ++ "h" ++ toString (s % 3600 / 60) ++ "m" ++ toString (s % 60) ++ "s"
    else if 60 ≤ s then toString (s / 60) ++ "m" ++ toString (s % 60) ++ "s"
    else toString s ++ "s"
  else toString d ++ "ns"

/-- The `*resource.TimeoutError` that `WaitForState` returns inside
`resource.Retry` when the timeout passes before any call has completed: it has
no last error and no last state, and is no `awserr.Error`. -/
def timeoutError (timeout : Nat) : GoError :=
  .leaf ⟨"timeout while waiting for state to become 'success' (timeout: " ++
    durationString timeout ++ ")", .other, none⟩

/-- State of one run of `resource.Retry`: the number of calls of the closure
started, the number of them that completed before the wait was given up, the
time at which the next call would start, the variable `wait` of the refresh
loop, the variables captured by the closure, the variable `resultErr`, and
whether `WaitForState` ended with its timeout error. -/
structure RetryState (σ : Type) where
  calls : Nat
  completed : Nat
  now : Nat
  wait : Nat
  captured : σ
  resultErr : Error
  timedOut : Bool

/-- The refresh loop that `resource.Retry(timeout, closure)` runs through
`WaitForState`, as seen by the caller of `Retry`.  `closure k c` is the `k`-th
call of the closure on captured variables `c` and `duration k` the time that
call takes.  The loop is cancelled when the timeout passes, so no call is
started at or after it.  A call started before the timeout is waited for until
`refreshGracePeriod` after the timeout: when it has not returned by then,
`Retry` returns without its result (the call is abandoned).  A nil result or a
non-retryable error ends the loop; after a retryable error the loop waits
`nextWait` before the next call.  Two events at the same instant are ordered
timeout first, return of the call before the end of the grace period.  `fuel`
bounds the number of calls; `none` means that the fuel ran out. -/
def retryLoop {σ : Type} (timeout : Nat) (closure : Nat → σ → Option RetryError × σ)
    (duration : Nat → Nat) : Nat → RetryState σ → Option (RetryState σ)
  | fuel, s =>
    if timeout ≤ s.now then
      some ⟨s.calls, s.completed, s.now, s.wait, s.captured, s.resultErr, true⟩
    else
      match fuel with
      | 0 => none
      | fuel + 1 =>
        if timeout + refreshGracePeriod < s.now + duration s.calls then
          some ⟨s.calls + 1, s.completed, s.now, s.wait, s.captured, s.resultErr, true⟩
        else
          match closure s.calls s.captured with
          | (none, c) =>
            some ⟨s.calls + 1, s.completed + 1, s.now + duration s.calls, s.wait, c, none,
              false⟩
          | (some r, c) =>
            if r.Retryable then
              retryLoop timeout closure duration fuel
                ⟨s.calls + 1, s.completed + 1, s.now + duration s.calls + nextWait s.wait,
                  nextWait s.wait, c, r.Err, false⟩
            else
              some ⟨s.calls + 1, s.completed + 1, s.now + duration s.calls, s.wait, c, r.Err,
                false⟩

/-- What a run of `resource.Retry` leaves: the error it returns, the variables
captured by the closure, and the numbers of calls started and completed. -/
structure RetryRun (σ : Type) where
  err : Error
  captured : σ
  calls : Nat
  completed : Nat

/-- The end of `resource.Retry`: `resultErr` when it is not nil, otherwise the
error of `WaitForState`, which is its timeout error or nil. -/
def retryReturn {σ : Type} (timeout : Nat) (s : RetryState σ) : Error :=
  match s.resultErr with
  | some e => some e
  | none => if s.timedOut then some (timeoutError timeout) else none

/-- The function `resource.Retry(timeout, closure)`, run from its initial
state. -/
def resourceRetry {σ : Type} (timeout : Nat) (closure : Nat → σ → Option RetryError × σ)
    (duration : Nat → Nat) (init : σ) (fuel : Nat) : Option (RetryRun σ) :=
  (retryLoop timeout closure duration fuel ⟨0, 0, 0, 0, init, none, false⟩).map
    fun s => ⟨retryReturn timeout s, s.captured, s.calls, s.completed⟩

/-- What one call of `f` does: the pair it returns and the time it takes. -/
structure Attempt where
  resp : GoValue
  err : Error
  elapsed : Nat
  deriving DecidableEq, Repr

/-- What a retry wrapper returns, with the number of calls of `f` it started
and the number of them that had returned when it returned. -/
structure Outcome where
  resp : GoValue
  err : Error
  calls : Nat
  completed : Nat
  deriving DecidableEq, Repr

/-- The classification in the closure of `retryOnAwsCode`, after
`resp, err = f()`. -/
def retryOnAwsCodeClassify (code : String) (err : Error) : Option RetryError :=
  match err with
  | some e =>
    match asAwsError e.head with
    | some (c, _) =>
      if c == code then RetryableError err else NonRetryableError err
    | none => NonRetryableError err
  | none => none

/-- The function `retryOnAwsCode(code, f)`; `f k` is the `k`-th call of `f`. -/
def retryOnAwsCode (code : String) (f : Nat → Attempt) (fuel : Nat) : Option Outcome :=
  (resourceRetry (2 * Minute)
    (fun k _ => (retryOnAwsCodeClassify code (f k).err, (f k).resp))
    (fun k => (f k).elapsed) GoValue.nil fuel).map
    fun r => ⟨r.captured, r.err, r.calls, r.completed⟩

/-- The loop `for _, code := range codes` in `RetryOnAwsCodes`: `some r` is an
early `return r`, `none` is falling out of the loop. -/
def codesLoop (c : String) (err : Error) : List String → Option (Option RetryError)
  | [] => none
  | code :: rest =>
    if c == code then some (RetryableError err) else codesLoop c err rest

/-- The classification in the closure of `RetryOnAwsCodes`, after
`resp, err = f()`. -/
def RetryOnAwsCodesClassify (codes : List String) (err : Error) : Option RetryError :=
  match err with
  | some e =>
    match asAwsError e.head with
    | some (c, _) =>
      match codesLoop c err codes with
      | some r => r
      | none => NonRetryableError err
    | none => NonRetryableError err
  | none => none

/-- The function `RetryOnAwsCodes(codes, f)`; `f k` is the `k`-th call of `f`. -/
def RetryOnAwsCodes (codes : List String) (f : Nat → Attempt) (fuel : Nat) : Option Outcome :=
  (resourceRetry (1 * Minute)
    (fun k _ => (RetryOnAwsCodesClassify codes (f k).err, (f k).resp))
    (fun k => (f k).elapsed) GoValue.nil fuel).map
    fun r => ⟨r.captured, r.err, r.calls, r.completed⟩

/-- The value of the variable `wait` of the refresh loop before the `k`-th
call, all earlier calls having ended in a retryable error: 0, 500 ms, 1 s, 2 s,
4 s, 8 s, then 10 s. -/
def backoff : Nat → Nat
  | 0 => 0
  | k + 1 => nextWait (backoff k)

/-- The time at which the `k`-th call of `f` would start: the time taken by
the calls before it and the waits between the calls. -/
def startTime (f : Nat → Attempt) : Nat → Nat
  | 0 => 0
  | k + 1 => startTime f k + (f k).elapsed + backoff (k + 1)

/-! ## Loading a file -/

/-- The two library calls of `loadFileContent`: `homedir.Expand` and
`ioutil.ReadFile`, each returning a value or an error. -/
structure FileEnv where
  expand : String → Except GoError String
  readFile : String → Except GoError (List UInt8)

/-- What `loadFileContent` returns (`content = none` is the nil slice), with the
paths `ioutil.ReadFile` was called with. -/
structure LoadResult where
  content : Option (List UInt8)
  err : Error
  reads : List String

/-- The function `loadFileContent(v)`. -/
def loadFileContent (env : FileEnv) (v : String) : LoadResult :=
  match env.expand v with
  | .error err => ⟨none, some err, []⟩
  | .ok filename =>
    match env.readFile filename with
    | .error err => ⟨none, some err, [filename]⟩
    | .ok fileContent => ⟨some fileContent, none, [filename]⟩

/-! ## String lists -/

/-- A Go `*string`: `none` is the nil pointer. -/
abbrev StringPtr := Option String

/-- The helper `aws.String(v)`: a pointer to a copy of `v`. -/
def awsString (v : String) : StringPtr := some v

/-- The loop of `flattenStringList` with its slice `vs`; `none` is the panic
of dereferencing a nil pointer. -/
def flattenStringListLoop : List StringPtr → List GoValue → Option (List GoValue)
  | [], vs => some vs
  | none :: _, _ => none
  | some s :: rest, vs => flattenStringListLoop rest (vs ++ [GoValue.str s])

/-- The function `flattenStringList(list)`. -/
def flattenStringList (list : List StringPtr) : Option (List GoValue) :=
  flattenStringListLoop list []

/-- The loop of `expandStringList` with its slice `vs`. -/
def expandStringListLoop : List GoValue → List StringPtr → List StringPtr
  | [], vs => vs
  | v :: rest, vs =>
    match asString v with
    | some val =>
      if val != "" then expandStringListLoop rest (vs ++ [awsString val])
      else expandStringListLoop rest vs
    | none => expandStringListLoop rest vs

/-- The function `expandStringList(configured)`. -/
def expandStringList (configured : List GoValue) : List StringPtr :=
  expandStringListLoop configured []

/-! ## Definitions used to state the properties -/

/-- Replace the code and message of an error value, keeping everything else. -/
def ErrKind.setCodeMessage (g : String → String → String × String) : ErrKind → ErrKind
  | .other => .other
  | .awsError c m => .awsError (g c m).1 (g c m).2
  | .requestFailure c m sc rid => .requestFailure (g c m).1 (g c m).2 sc rid

/-- Replace the code and message of an error value and of the `awserr.Error`
its `As` method stores, keeping everything else. -/
def ErrNode.setCodeMessage (g : String → String → String × String) (n : ErrNode) : ErrNode :=
  ⟨n.text, n.kind.setCodeMessage g,
    n.asMethod.map fun am => ⟨am.awsError.map fun cm => g cm.1 cm.2, am.requestFailure⟩⟩

mutual
/-- Replace the code and message of every value of an error tree. -/
def GoError.setCodeMessage (g : String → String → String × String) : GoError → GoError
  | .leaf n => .leaf (n.setCodeMessage g)
  | .wrap n inner => .wrap (n.setCodeMessage g) (inner.setCodeMessage g)
  | .join n errs => .join (n.setCodeMessage g) (errs.setCodeMessage g)
/-- Replace the code and message of every value of the trees of a slice. -/
def GoErrors.setCodeMessage (g : String → String → String × String) : GoErrors → GoErrors
  | .nil => .nil
  | .nilElem rest => .nilElem (rest.setCodeMessage g)
  | .cons e rest => .cons (e.setCodeMessage g) (rest.setCodeMessage g)
end

/-- The error `errors.Join(awserr.New("A", "first", nil), awserr.New("B",
"second", nil))`. -/
def joinedAwsErrors : GoError :=
  .join ⟨"A: first\nB: second", .other, none⟩
    (.cons (.leaf ⟨"A: first", .awsError "A" "first", none⟩)
      (.cons (.leaf ⟨"B: second", .awsError "B" "second", none⟩) .nil))

/-- The error `errors.Join` of a request failure with status 404 and a request
failure with status 500. -/
def joinedRequestFailures : GoError :=
  .join ⟨"NotFound: gone\nInternal: failed", .other, none⟩
    (.cons (.leaf ⟨"NotFound: gone", .requestFailure "NotFound" "gone" 404 "r1", none⟩)
      (.cons (.leaf ⟨"Internal: failed", .requestFailure "Internal" "failed" 500 "r2", none⟩)
        .nil))

/-- The error `errors.Join(errors.New("boom"), awserr.New("Throttling", "slow
down", nil))`. -/
def joinedPlainAndAws : GoError :=
  .join ⟨"boom\nThrottling: slow down", .other, none⟩
    (.cons (.leaf ⟨"boom", .other, none⟩)
      (.cons (.leaf ⟨"Throttling: slow down", .awsError "Throttling" "slow down", none⟩) .nil))

/-- A call that fails twice with a throttling error and then succeeds, each
call taking a tenth of a second. -/
def flakyCall (k : Nat) : Attempt :=
  if k < 2 then
    ⟨.nil, some (.leaf ⟨"Throttling: slow down", .awsError "Throttling" "slow down", none⟩),
      100000000⟩
  else ⟨.str "created", none, 100000000⟩

/-- A call that always fails with a throttling error after 25 seconds. -/
def throttledCall (k : Nat) : Attempt :=
  ⟨.int k, some (.leaf ⟨"Throttling: slow down", .awsError "Throttling" "slow down", none⟩),
    25000000000⟩

/-- A call that fails with a throttling error after one second the first time
and takes 200 seconds to succeed afterwards. -/
def slowSecondCall (k : Nat) : Attempt :=
  if k = 0 then
    ⟨.str "first", some (.leaf ⟨"Throttling: slow down", .awsError "Throttling" "slow down",
      none⟩), 1000000000⟩
  else ⟨.str "second", none, 200000000000⟩

/-- A call that takes 200 seconds to succeed. -/
def hangingCall (_ : Nat) : Attempt :=
  ⟨.str "late", none, 200000000000⟩

/-- An error value of another type with text `t1` whose `Unwrap()` returns an
`awserr.Error` with code `c` and message `m`. -/
def wrappedAwsError (t1 t2 c m : String) : GoError :=
  .wrap ⟨t1, .other, none⟩ (.leaf ⟨t2, .awsError c m, none⟩)

/-- Whether an interface value is a string other than the empty string. -/
def isNonEmptyString : GoValue → Bool
  | .str s => s != ""
  | _ => false

/-- The string a pointer points to, as an interface value (nil for a nil
pointer). -/
def derefValue : StringPtr → GoValue
  | some s => .str s
  | none => .nil

/-- A file system in which the home directory is `/home/u` and
`/home/u/key.pem` is the one readable file: `expand` follows `homedir.Expand`
(a path that does not start with a tilde is returned as it is, a tilde followed
by a user name is an error), `readFile` fails on every other path. -/
def sampleEnv : FileEnv where
  expand := fun v =>
    match v.data with
    | ['~'] => .ok "/home/u"
    | '~' :: '/' :: rest => .ok ("/home/u/" ++ String.mk rest)
    | '~' :: _ => .error (.leaf ⟨"cannot expand user-specific home dir", .other, none⟩)
    | _ => .ok v
  readFile := fun p =>
    if p = "/home/u/key.pem" then .ok [107, 101, 121]
    else .error (.leaf ⟨"open " ++ p ++ ": no such file or directory", .other, none⟩)

/-! ## Properties of the error predicates -/

theorem hasPrefix_iff (s p : List Char) : hasPrefix s p = true ↔ p <+: s := by
  induction s generalizing p with
  | nil => cases p <;> simp [hasPrefix]
  | cons c s ih =>
    cases p with
    | nil => simp [hasPrefix]
    | cons d p =>
      rw [hasPrefix, Bool.and_eq_true, ih, List.cons_prefix_cons, beq_iff_eq]
      exact ⟨fun h => ⟨h.1.symm, h.2⟩, fun h => ⟨h.1.symm, h.2⟩⟩

theorem containsChars_iff (s sub : List Char) : containsChars s sub = true ↔ sub <:+: s := by
  induction s with
  | nil => cases sub <;> simp [containsChars, hasPrefix]
  | cons c s ih =>
    rw [containsChars, Bool.or_eq_true, hasPrefix_iff, ih, List.infix_cons_iff]

theorem stringsContains_iff (s substr : String) :
    stringsContains s substr = true ↔ substr.data <:+: s.data :=
  containsChars_iff _ _

mutual
theorem errorsAsLoop_eq_findSome {α : Type} (found : ErrNode → Option α) :
    ∀ e : GoError, errorsAsLoop found e = e.preorder.findSome? found
  | .leaf n => by
    cases h : found n <;> simp [errorsAsLoop, GoError.preorder, List.findSome?, h]
  | .wrap n inner => by
    have ih := errorsAsLoop_eq_findSome found inner
    cases h : found n <;> simp [errorsAsLoop, GoError.preorder, List.findSome?, h, ih]
  | .join n errs => by
    have ih := errorsAsRange_eq_findSome found errs
    cases h : found n <;> simp [errorsAsLoop, GoError.preorder, List.findSome?, h, ih]
theorem errorsAsRange_eq_findSome {α : Type} (found : ErrNode → Option α) :
    ∀ es : GoErrors, errorsAsRange found es = es.preorder.findSome? found
  | .nil => by simp [errorsAsRange, GoErrors.preorder]
  | .nilElem rest => by
    have ih := errorsAsRange_eq_findSome found rest
    simp [errorsAsRange, GoErrors.preorder, ih]
  | .cons e rest => by
    have ih1 := errorsAsLoop_eq_findSome found e
    have ih2 := errorsAsRange_eq_findSome found rest
    cases h : errorsAsLoop found e <;>
      simp [errorsAsRange, GoErrors.preorder, List.findSome?_append, h, ← ih1, ← ih2]
end

theorem errorsAsLoop_eq_some_iff {α : Type} (found : ErrNode → Option α) (e : GoError)
    (a : α) :
    errorsAsLoop found e = some a ↔
      ∃ pre n post, e.preorder = pre ++ n :: post ∧ (∀ p ∈ pre, found p = none) ∧
        found n = some a := by
  rw [errorsAsLoop_eq_findSome, List.findSome?_eq_some_iff]
  constructor
  · rintro ⟨pre, n, post, h1, h2, h3⟩
    exact ⟨pre, n, post, h1, h3, h2⟩
  · rintro ⟨pre, n, post, h1, h3, h2⟩
    exact ⟨pre, n, post, h1, h2, h3⟩

theorem errorsAsLoop_eq_none_iff {α : Type} (found : ErrNode → Option α) (e : GoError) :
    errorsAsLoop found e = none ↔ ∀ n ∈ e.preorder, found n = none := by
  rw [errorsAsLoop_eq_findSome, List.findSome?_eq_none_iff]

theorem matchAwsError_eq_some_iff (n : ErrNode) (a : String × String) :
    matchAwsError n = some a ↔
      asAwsError n = some a ∨
        (asAwsError n = none ∧ ∃ am, n.asMethod = some am ∧ am.awsError = some a) := by
  unfold matchAwsError
  cases h : asAwsError n with
  | some b => simp
  | none =>
    cases hm : n.asMethod with
    | none => simp
    | some am => simp

theorem matchAwsError_eq_none_iff (n : ErrNode) :
    matchAwsError n = none ↔
      asAwsError n = none ∧ ∀ am, n.asMethod = some am → am.awsError = none := by
  unfold matchAwsError
  cases h : asAwsError n with
  | some b => simp
  | none =>
    cases hm : n.asMethod with
    | none => simp
    | some am => simp

theorem matchRequestFailure_eq_some_iff (n : ErrNode) (a : Int) :
    matchRequestFailure n = some a ↔
      asRequestFailure n = some a ∨
        (asRequestFailure n = none ∧
          ∃ am, n.asMethod = some am ∧ am.requestFailure = some a) := by
  unfold matchRequestFailure
  cases h : asRequestFailure n with
  | some b => simp
  | none =>
    cases hm : n.asMethod with
    | none => simp
    | some am => simp

theorem matchRequestFailure_eq_none_iff (n : ErrNode) :
    matchRequestFailure n = none ↔
      asRequestFailure n = none ∧ ∀ am, n.asMethod = some am → am.requestFailure = none := by
  unfold matchRequestFailure
  cases h : asRequestFailure n with
  | some b => simp
  | none =>
    cases hm : n.asMethod with
    | none => simp
    | some am => simp

theorem matchRequestFailure_setCodeMessage (g : String → String → String × String)
    (n : ErrNode) : matchRequestFailure (n.setCodeMessage g) = matchRequestFailure n := by
  obtain ⟨t, k, am⟩ := n
  cases k <;> cases am <;> rfl

mutual
theorem errorsAsLoop_setCodeMessage (g : String → String → String × String) :
    ∀ e : GoError, errorsAsLoop matchRequestFailure (e.setCodeMessage g) =
      errorsAsLoop matchRequestFailure e
  | .leaf n => by
    simp [GoError.setCodeMessage, errorsAsLoop, matchRequestFailure_setCodeMessage]
  | .wrap n inner => by
    have ih := errorsAsLoop_setCodeMessage g inner
    simp [GoError.setCodeMessage, errorsAsLoop, matchRequestFailure_setCodeMessage, ih]
  | .join n errs => by
    have ih := errorsAsRange_setCodeMessage g errs
    simp [GoError.setCodeMessage, errorsAsLoop, matchRequestFailure_setCodeMessage, ih]
theorem errorsAsRange_setCodeMessage (g : String → String → String × String) :
    ∀ es : GoErrors, errorsAsRange matchRequestFailure (es.setCodeMessage g) =
      errorsAsRange matchRequestFailure es
  | .nil => by simp [GoErrors.setCodeMessage, errorsAsRange]
  | .nilElem rest => by
    have ih := errorsAsRange_setCodeMessage g rest
    simp [GoErrors.setCodeMessage, errorsAsRange, ih]
  | .cons e rest => by
    have ih1 := errorsAsLoop_setCodeMessage g e
    have ih2 := errorsAsRange_setCodeMessage g rest
    simp [GoErrors.setCodeMessage, errorsAsRange, ih1, ih2]
end

/-- C1 (amended): `isAWSErr(err, code, message)` is true exactly when, in the
order in which `errors.As` visits the values of the error tree of `err`, the
first value that is an `awserr.Error`, or whose own `As` method supplies one,
gives an `awserr.Error` with `Code()` equal to `code` and a `Message()` that
contains `message`; it is false for a nil error and for an error whose tree has
no such value. -/
theorem isAWSErr_iff_first (err : Error) (code message : String) :
    (isAWSErr err code message = true ↔
      ∃ e pre n post m, err = some e ∧ e.preorder = pre ++ n :: post ∧
        (∀ p ∈ pre, asAwsError p = none ∧
          ∀ am, p.asMethod = some am → am.awsError = none) ∧
        (asAwsError n = some (code, m) ∨
          (asAwsError n = none ∧
            ∃ am, n.asMethod = some am ∧ am.awsError = some (code, m))) ∧
        message.data <:+: m.data) ∧
    isAWSErr none code message = false ∧
    (∀ e : GoError,
      (∀ n ∈ e.preorder, asAwsError n = none ∧
        ∀ am, n.asMethod = some am → am.awsError = none) →
      isAWSErr (some e) code message = false) := by
  refine ⟨?_, rfl, ?_⟩
  · cases err with
    | none => simp [isAWSErr, errorsAs]
    | some e =>
      constructor
      · intro h
        cases hf : errorsAsLoop matchAwsError e with
        | none => simp [isAWSErr, errorsAs, hf] at h
        | some cm =>
          obtain ⟨c, m⟩ := cm
          simp only [isAWSErr, errorsAs, hf, Bool.and_eq_true, beq_iff_eq] at h
          obtain ⟨pre, n, post, h1, h2, h3⟩ := (errorsAsLoop_eq_some_iff _ _ _).1 hf
          refine ⟨e, pre, n, post, m, rfl, h1,
            fun p hp => (matchAwsError_eq_none_iff p).1 (h2 p hp), ?_,
            (stringsContains_iff _ _).1 h.2⟩
          rw [← h.1]
          exact (matchAwsError_eq_some_iff n (c, m)).1 h3
      · rintro ⟨e', pre, n, post, m, he, h1, h2, h3, h4⟩
        cases he
        have hf : errorsAsLoop matchAwsError e = some (code, m) :=
          (errorsAsLoop_eq_some_iff _ _ _).2 ⟨pre, n, post, h1,
            fun p hp => (matchAwsError_eq_none_iff p).2 (h2 p hp),
            (matchAwsError_eq_some_iff n (code, m)).2 h3⟩
        simp only [isAWSErr, errorsAs, hf, Bool.and_eq_true, beq_iff_eq, true_and]
        exact (stringsContains_iff _ _).2 h4
  · intro e h
    have hf := (errorsAsLoop_eq_none_iff matchAwsError e).2
      (fun n hn => (matchAwsError_eq_none_iff n).2 (h n hn))
    simp [isAWSErr, errorsAs, hf]

/-- C1, at concrete inputs: an error whose tree holds no `awserr.Error` is not
matched; the join of a plain error and a throttling error is matched. -/
theorem isAWSErr_iff_first_witness :
    (∀ n ∈ (GoError.wrap ⟨"outer", .other, none⟩ (.leaf ⟨"boom", .other, none⟩)).preorder,
      asAwsError n = none ∧ ∀ am, n.asMethod = some am → am.awsError = none) ∧
    isAWSErr (some (.wrap ⟨"outer", .other, none⟩ (.leaf ⟨"boom", .other, none⟩)))
      "Throttling" "" = false ∧
    isAWSErr (some joinedPlainAndAws) "Throttling" "slow" = true :=
  ⟨by simp [GoError.preorder, asAwsError],
   (isAWSErr_iff_first none "Throttling" "").2.2 _ (by simp [GoError.preorder, asAwsError]),
   by decide⟩

/-- C1 as stated fails: `joinedAwsErrors` wraps an `awserr.Error` whose code is
`B` and whose message contains the empty string, yet `isAWSErr` is false for
code `B`, because `errors.As` stops at the `awserr.Error` with code `A`, which
it visits first. -/
theorem isAWSErr_misses_later_awserr :
    (∃ n ∈ joinedAwsErrors.preorder, ∃ m, asAwsError n = some ("B", m) ∧
      "".data <:+: m.data) ∧
    isAWSErr (some joinedAwsErrors) "B" "" = false := by
  refine ⟨⟨⟨"B: second", .awsError "B" "second", none⟩, by decide, "second", rfl, ?_⟩,
    by decide⟩
  exact List.nil_infix

/-- C2 (amended): `isAWSErrRequestFailureStatusCode(err, statusCode)` is true
exactly when, in the order in which `errors.As` visits the values of the error
tree of `err`, the first value that is an `awserr.RequestFailure`, or whose own
`As` method supplies one, gives a request failure with `StatusCode()` equal to
`statusCode`; replacing the codes and messages of the errors of the tree does
not change the result. -/
theorem isAWSErrRequestFailureStatusCode_iff_first (err : Error) (statusCode : Int) :
    (isAWSErrRequestFailureStatusCode err statusCode = true ↔
      ∃ e pre n post, err = some e ∧ e.preorder = pre ++ n :: post ∧
        (∀ p ∈ pre, asRequestFailure p = none ∧
          ∀ am, p.asMethod = some am → am.requestFailure = none) ∧
        (asRequestFailure n = some statusCode ∨
          (asRequestFailure n = none ∧
            ∃ am, n.asMethod = some am ∧ am.requestFailure = some statusCode))) ∧
    (∀ (g : String → String → String × String) (e : GoError),
      isAWSErrRequestFailureStatusCode (some (e.setCodeMessage g)) statusCode =
        isAWSErrRequestFailureStatusCode (some e) statusCode) := by
  constructor
  · cases err with
    | none => simp [isAWSErrRequestFailureStatusCode, errorsAs]
    | some e =>
      constructor
      · intro h
        cases hf : errorsAsLoop matchRequestFailure e with
        | none => simp [isAWSErrRequestFailureStatusCode, errorsAs, hf] at h
        | some sc =>
          simp only [isAWSErrRequestFailureStatusCode, errorsAs, hf, beq_iff_eq] at h
          obtain ⟨pre, n, post, h1, h2, h3⟩ := (errorsAsLoop_eq_some_iff _ _ _).1 hf
          refine ⟨e, pre, n, post, rfl, h1,
            fun p hp => (matchRequestFailure_eq_none_iff p).1 (h2 p hp), ?_⟩
          rw [← h]
          exact (matchRequestFailure_eq_some_iff n sc).1 h3
      · rintro ⟨e', pre, n, post, he, h1, h2, h3⟩
        cases he
        have hf : errorsAsLoop matchRequestFailure e = some statusCode :=
          (errorsAsLoop_eq_some_iff _ _ _).2 ⟨pre, n, post, h1,
            fun p hp => (matchRequestFailure_eq_none_iff p).2 (h2 p hp),
            (matchRequestFailure_eq_some_iff n statusCode).2 h3⟩
        simp [isAWSErrRequestFailureStatusCode, errorsAs, hf]
  · intro g e
    simp [isAWSErrRequestFailureStatusCode, errorsAs, errorsAsLoop_setCodeMessage]

/-- C2, at a concrete input: a plain error wrapping a request failure with
status 404 is matched for 404, whatever its code and message are changed to. -/
theorem isAWSErrRequestFailureStatusCode_iff_first_witness :
    isAWSErrRequestFailureStatusCode
      (some (.wrap ⟨"ctx", .other, none⟩
        (.leaf ⟨"NoSuchBucket: gone", .requestFailure "NoSuchBucket" "gone" 404 "req-1",
          none⟩))) 404 = true ∧
    isAWSErrRequestFailureStatusCode
      (some ((GoError.wrap ⟨"ctx", .other, none⟩
        (.leaf ⟨"NoSuchBucket: gone", .requestFailure "NoSuchBucket" "gone" 404 "req-1",
          none⟩)).setCodeMessage (fun _ _ => ("X", "y")))) 404 =
      isAWSErrRequestFailureStatusCode
        (some (.wrap ⟨"ctx", .other, none⟩
          (.leaf ⟨"NoSuchBucket: gone", .requestFailure "NoSuchBucket" "gone" 404 "req-1",
            none⟩))) 404 :=
  ⟨by decide,
   (isAWSErrRequestFailureStatusCode_iff_first none 404).2 (fun _ _ => ("X", "y")) _⟩

/-- C2 as stated fails: `joinedRequestFailures` wraps an
`awserr.RequestFailure` whose status code is 500, yet the function is false for
500, because `errors.As` stops at the request failure with status 404, which it
visits first. -/
theorem isAWSErrRequestFailureStatusCode_misses_later :
    (∃ n ∈ joinedRequestFailures.preorder, asRequestFailure n = some 500) ∧
    isAWSErrRequestFailureStatusCode (some joinedRequestFailures) 500 = false := by
  refine ⟨⟨⟨"Internal: failed", .requestFailure "Internal" "failed" 500 "r2", none⟩,
    by decide, rfl⟩, by decide⟩

/-! ## Properties of the retry wrappers -/

theorem retryLoop_done {σ : Type} (T : Nat) (cl : Nat → σ → Option RetryError × σ)
    (el : Nat → Nat) (fuel : Nat) (s : RetryState σ) (h : T ≤ s.now) :
    retryLoop T cl el fuel s =
      some ⟨s.calls, s.completed, s.now, s.wait, s.captured, s.resultErr, true⟩ := by
  cases fuel <;> simp [retryLoop, h]

theorem retryLoop_zero {σ : Type} (T : Nat) (cl : Nat → σ → Option RetryError × σ)
    (el : Nat → Nat) (s : RetryState σ) (h : s.now < T) :
    retryLoop T cl el 0 s = none := by
  simp [retryLoop, Nat.not_le.2 h]

theorem retryLoop_abandon {σ : Type} (T : Nat) (cl : Nat → σ → Option RetryError × σ)
    (el : Nat → Nat) (fuel : Nat) (s : RetryState σ) (h : s.now < T)
    (hslow : T + refreshGracePeriod < s.now + el s.calls) :
    retryLoop T cl el (fuel + 1) s =
      some ⟨s.calls + 1, s.completed, s.now, s.wait, s.captured, s.resultErr, true⟩ := by
  rw [retryLoop]
  simp [Nat.not_le.2 h, hslow]

theorem retryLoop_succ {σ : Type} (T : Nat) (cl : Nat → σ → Option RetryError × σ)
    (el : Nat → Nat) (fuel : Nat) (s : RetryState σ) (h : s.now < T)
    (hfast : s.now + el s.calls ≤ T + refreshGracePeriod) :
    retryLoop T cl el (fuel + 1) s =
      match cl s.calls s.captured with
      | (none, c) =>
        some ⟨s.calls + 1, s.completed + 1, s.now + el s.calls, s.wait, c, none, false⟩
      | (some r, c) =>
        if r.Retryable then
          retryLoop T cl el fuel
            ⟨s.calls + 1, s.completed + 1, s.now + el s.calls + nextWait s.wait,
              nextWait s.wait, c, r.Err, false⟩
        else
          some ⟨s.calls + 1, s.completed + 1, s.now + el s.calls, s.wait, c, r.Err, false⟩ := by
  rw [retryLoop]
  simp [Nat.not_le.2 h, Nat.not_lt.2 hfast]

theorem nextWait_pos (w : Nat) : 0 < nextWait w := by
  unfold nextWait
  simp only [retryMinTimeout, Millisecond, Second]
  split_ifs <;> omega

theorem codesLoop_eq (c : String) (err : Error) (codes : List String) :
    codesLoop c err codes = if c ∈ codes then some (RetryableError err) else none := by
  induction codes with
  | nil => simp [codesLoop]
  | cons code rest ih =>
    by_cases h : c = code
    · simp [codesLoop, h]
    · simp [codesLoop, h, ih]

/-- The classification of `RetryOnAwsCodes` in closed form. -/
theorem RetryOnAwsCodesClassify_some (codes : List String) (e : GoError) :
    RetryOnAwsCodesClassify codes (some e) =
      match asAwsError e.head with
      | some (c, _) => if c ∈ codes then some ⟨some e, true⟩ else some ⟨some e, false⟩
      | none => some ⟨some e, false⟩ := by
  simp only [RetryOnAwsCodesClassify]
  generalize asAwsError e.head = o
  rcases o with _ | ⟨c, m⟩
  · simp [NonRetryableError]
  · by_cases hc : c ∈ codes <;> simp [codesLoop_eq, hc, RetryableError, NonRetryableError]

/-- The classification of `retryOnAwsCode` in closed form. -/
theorem retryOnAwsCodeClassify_some (code : String) (e : GoError) :
    retryOnAwsCodeClassify code (some e) =
      match asAwsError e.head with
      | some (c, _) => if c = code then some ⟨some e, true⟩ else some ⟨some e, false⟩
      | none => some ⟨some e, false⟩ := by
  simp only [retryOnAwsCodeClassify]
  generalize asAwsError e.head = o
  rcases o with _ | ⟨c, m⟩
  · simp [NonRetryableError]
  · by_cases hc : c = code <;> simp [hc, RetryableError, NonRetryableError]

theorem retryOnAwsCodeClassify_carries (code : String) (err : Error) (r : RetryError)
    (h : retryOnAwsCodeClassify code err = some r) : r.Err = err := by
  cases err with
  | none => simp [retryOnAwsCodeClassify] at h
  | some e =>
    rw [retryOnAwsCodeClassify_some] at h
    generalize asAwsError e.head = o at h
    rcases o with _ | ⟨c, m⟩
    · simp only [Option.some.injEq] at h
      subst h
      rfl
    · by_cases hc : c = code <;> simp [hc] at h <;> subst h <;> rfl

theorem retryOnAwsCodeClassify_none (code : String) (err : Error) :
    retryOnAwsCodeClassify code err = none ↔ err = none := by
  cases err with
  | none => simp [retryOnAwsCodeClassify]
  | some e =>
    rw [retryOnAwsCodeClassify_some]
    generalize asAwsError e.head = o
    rcases o with _ | ⟨c, m⟩
    · simp
    · by_cases hc : c = code <;> simp [hc]

theorem RetryOnAwsCodesClassify_carries (codes : List String) (err : Error) (r : RetryError)
    (h : RetryOnAwsCodesClassify codes err = some r) : r.Err = err := by
  cases err with
  | none => simp [RetryOnAwsCodesClassify] at h
  | some e =>
    rw [RetryOnAwsCodesClassify_some] at h
    generalize asAwsError e.head = o at h
    rcases o with _ | ⟨c, m⟩
    · simp only [Option.some.injEq] at h
      subst h
      rfl
    · by_cases hc : c ∈ codes <;> simp [hc] at h <;> subst h <;> rfl

theorem RetryOnAwsCodesClassify_none (codes : List String) (err : Error) :
    RetryOnAwsCodesClassify codes err = none ↔ err = none := by
  cases err with
  | none => simp [RetryOnAwsCodesClassify]
  | some e =>
    rw [RetryOnAwsCodesClassify_some]
    generalize asAwsError e.head = o
    rcases o with _ | ⟨c, m⟩
    · simp
    · by_cases hc : c ∈ codes <;> simp [hc]

/-- The retry loop returns once the fuel covers the time left to the
timeout. -/
theorem retryLoop_isSome {σ : Type} (T : Nat) (cl : Nat → σ → Option RetryError × σ)
    (el : Nat → Nat) (fuel : Nat) (s : RetryState σ)
    (hfuel : T - s.now ≤ fuel) : ∃ s', retryLoop T cl el fuel s = some s' := by
  induction fuel generalizing s with
  | zero => exact ⟨_, retryLoop_done _ _ _ _ _ (by omega)⟩
  | succ fuel ih =>
    by_cases h : T ≤ s.now
    · exact ⟨_, retryLoop_done _ _ _ _ _ h⟩
    · by_cases hslow : T + refreshGracePeriod < s.now + el s.calls
      · exact ⟨_, retryLoop_abandon _ _ _ _ _ (by omega) hslow⟩
      · rw [retryLoop_succ _ _ _ _ _ (by omega) (by omega)]
        rcases hc : cl s.calls s.captured with ⟨_ | r, c⟩
        · exact ⟨_, rfl⟩
        · cases hr : r.Retryable
          · exact ⟨⟨s.calls + 1, s.completed + 1, s.now + el s.calls, s.wait, c, r.Err,
              false⟩, by simp [hr]⟩
          · have hw := nextWait_pos s.wait
            obtain ⟨s', hs'⟩ := ih ⟨s.calls + 1, s.completed + 1,
              s.now + el s.calls + nextWait s.wait, nextWait s.wait, c, r.Err, false⟩
              (by show T - (s.now + el s.calls + nextWait s.wait) ≤ fuel; omega)
            exact ⟨s', by simpa [hr] using hs'⟩

theorem le_startTime (f : Nat → Attempt) (hpos : ∀ k, 0 < (f k).elapsed) (k : Nat) :
    k ≤ startTime f k := by
  induction k with
  | zero => simp [startTime]
  | succ k ih =>
    have := hpos k
    simp only [startTime]
    omega

theorem startTime_mono (f : Nat → Attempt) {j k : Nat} (h : j ≤ k) :
    startTime f j ≤ startTime f k := by
  induction k with
  | zero =>
    have : j = 0 := by omega
    subst this
    exact le_refl _
  | succ k ih =>
    by_cases hj : j = k + 1
    · subst hj
      exact le_refl _
    · have := ih (by omega)
      simp only [startTime]
      omega

/-- What the retry loop of a wrapper leaves, for a classification `cl` that
carries the error of `f`, from a state reached through retryable calls: at
most the last call started is abandoned; the captured response and the
recorded error are those of the last completed call, which started before the
timeout; an abandoned call had not returned at the end of the grace period; a
nil recorded error after a completed call means success; and a retryable last
call means that the timeout has passed. -/
theorem retryLoop_wrapper (T : Nat) (cl : Error → Option RetryError) (f : Nat → Attempt)
    (hcl : ∀ err r, cl err = some r → r.Err = err)
    (hnil : ∀ err, cl err = none ↔ err = none)
    (fuel : Nat) (s s' : RetryState GoValue)
    (hnow : s.now = startTime f s.calls) (hwait : s.wait = backoff s.calls)
    (hcomp : s.completed = s.calls)
    (hlast : 0 < s.calls → s.captured = (f (s.calls - 1)).resp ∧
      s.resultErr = (f (s.calls - 1)).err ∧ s.resultErr ≠ none ∧
      startTime f (s.calls - 1) < T)
    (h : retryLoop T (fun k _ => (cl (f k).err, (f k).resp)) (fun k => (f k).elapsed)
      fuel s = some s') :
    s.calls ≤ s'.completed ∧ s'.completed ≤ s'.calls ∧ s'.calls ≤ s'.completed + 1 ∧
    (s.now < T → s.calls < s'.calls) ∧
    (0 < s'.completed → s'.captured = (f (s'.completed - 1)).resp ∧
      s'.resultErr = (f (s'.completed - 1)).err ∧ startTime f (s'.completed - 1) < T) ∧
    (s'.completed = 0 → s'.captured = s.captured ∧ s'.resultErr = s.resultErr ∧
      s'.timedOut = true) ∧
    (s'.completed < s'.calls → startTime f s'.completed < T ∧
      T + refreshGracePeriod < startTime f s'.completed + (f s'.completed).elapsed) ∧
    (0 < s'.completed → s'.resultErr = none → s'.timedOut = false) ∧
    (s'.completed = s'.calls →
      (0 < s'.calls → ∃ r, cl (f (s'.calls - 1)).err = some r ∧ r.Retryable = true) →
      T ≤ startTime f s'.calls) := by
  induction fuel generalizing s with
  | zero =>
    by_cases hd : T ≤ s.now
    · rw [retryLoop_done _ _ _ _ _ hd] at h
      simp only [Option.some.injEq] at h
      subst h
      refine ⟨by simp [hcomp], by simp [hcomp], by simp [hcomp], fun hlt => by omega, ?_,
        fun _ => ⟨rfl, rfl, rfl⟩, fun hlt => by simp [hcomp] at hlt, ?_, ?_⟩
      · intro hpos
        simp only [hcomp] at hpos ⊢
        obtain ⟨h1, h2, -, h4⟩ := hlast hpos
        exact ⟨h1, h2, h4⟩
      · intro hpos hnone
        simp only [hcomp] at hpos
        exact absurd hnone (hlast hpos).2.2.1
      · intro _ _
        show T ≤ startTime f s.calls
        omega
    · rw [retryLoop_zero _ _ _ _ (by omega)] at h
      cases h
  | succ fuel ih =>
    by_cases hd : T ≤ s.now
    · rw [retryLoop_done _ _ _ _ _ hd] at h
      simp only [Option.some.injEq] at h
      subst h
      refine ⟨by simp [hcomp], by simp [hcomp], by simp [hcomp], fun hlt => by omega, ?_,
        fun _ => ⟨rfl, rfl, rfl⟩, fun hlt => by simp [hcomp] at hlt, ?_, ?_⟩
      · intro hpos
        simp only [hcomp] at hpos ⊢
        obtain ⟨h1, h2, -, h4⟩ := hlast hpos
        exact ⟨h1, h2, h4⟩
      · intro hpos hnone
        simp only [hcomp] at hpos
        exact absurd hnone (hlast hpos).2.2.1
      · intro _ _
        show T ≤ startTime f s.calls
        omega
    · have hlt : startTime f s.calls < T := by omega
      by_cases hslow : T + refreshGracePeriod < s.now + (f s.calls).elapsed
      · rw [retryLoop_abandon _ _ _ _ _ (by omega) hslow] at h
        simp only [Option.some.injEq] at h
        subst h
        refine ⟨by simp [hcomp], by simp [hcomp], by simp [hcomp], fun _ => by simp, ?_,
          fun _ => ⟨rfl, rfl, rfl⟩, ?_, ?_, fun heq => by simp [hcomp] at heq⟩
        · intro hpos
          simp only [hcomp] at hpos ⊢
          obtain ⟨h1, h2, -, h4⟩ := hlast hpos
          exact ⟨h1, h2, h4⟩
        · intro _
          simp only [hcomp]
          exact ⟨hlt, by omega⟩
        · intro hpos hnone
          simp only [hcomp] at hpos
          exact absurd hnone (hlast hpos).2.2.1
      · rw [retryLoop_succ _ _ _ _ _ (by omega) (by omega)] at h
        rcases hc : cl (f s.calls).err with _ | r
        · have herr : (f s.calls).err = none := (hnil _).1 hc
          simp only [hc, Option.some.injEq] at h
          subst h
          refine ⟨by simp [hcomp], by simp [hcomp], by simp [hcomp], fun _ => by simp, ?_,
            fun h0 => by simp at h0, fun hlt' => by simp [hcomp] at hlt', fun _ _ => rfl, ?_⟩
          · intro _
            simp only [hcomp, Nat.add_sub_cancel]
            exact ⟨trivial, herr.symm, hlt⟩
          · intro _ hret
            obtain ⟨r, hr, -⟩ := hret (by simp)
            simp only [Nat.add_sub_cancel, hc] at hr
            cases hr
        · have hE : r.Err = (f s.calls).err := hcl _ _ hc
          cases hr : r.Retryable
          · simp only [hc, hr, Bool.false_eq_true, if_false, Option.some.injEq] at h
            subst h
            refine ⟨by simp [hcomp], by simp [hcomp], by simp [hcomp], fun _ => by simp, ?_,
              fun h0 => by simp at h0, fun hlt' => by simp [hcomp] at hlt', fun _ _ => rfl,
              ?_⟩
            · intro _
              simp only [hcomp, Nat.add_sub_cancel]
              exact ⟨trivial, hE, hlt⟩
            · intro _ hret
              obtain ⟨r', hr', hret'⟩ := hret (by simp)
              simp only [Nat.add_sub_cancel, hc, Option.some.injEq] at hr'
              subst hr'
              simp [hr] at hret'
          · simp only [hc, hr, if_true] at h
            have hne : (f s.calls).err ≠ none := by
              intro hn
              have := (hnil _).2 hn
              rw [hc] at this
              cases this
            obtain ⟨p1, p2, p3, -, p5, -, p7, p8, p9⟩ := ih
              ⟨s.calls + 1, s.completed + 1,
                s.now + (f s.calls).elapsed + nextWait s.wait, nextWait s.wait,
                (f s.calls).resp, r.Err, false⟩
              (by simp [startTime, backoff, hnow, hwait]) (by simp [backoff, hwait])
              (by simp [hcomp])
              (fun _ => by
                simp only [Nat.add_sub_cancel]
                exact ⟨trivial, hE, by rw [hE]; exact hne, hlt⟩) h
            simp only at p1
            refine ⟨by omega, p2, p3, fun _ => by omega, p5, fun h0 => by omega, p7, p8, p9⟩

/-- What a wrapper built on `resource.Retry` with a positive timeout returns. -/
theorem resourceRetry_wrapper (T : Nat) (hT : 0 < T) (cl : Error → Option RetryError)
    (f : Nat → Attempt) (hcl : ∀ err r, cl err = some r → r.Err = err)
    (hnil : ∀ err, cl err = none ↔ err = none) (fuel : Nat) (r : RetryRun GoValue)
    (h : resourceRetry T (fun k _ => (cl (f k).err, (f k).resp)) (fun k => (f k).elapsed)
      GoValue.nil fuel = some r) :
    1 ≤ r.calls ∧ r.completed ≤ r.calls ∧ r.calls ≤ r.completed + 1 ∧
    (0 < r.completed → r.captured = (f (r.completed - 1)).resp ∧
      r.err = (f (r.completed - 1)).err ∧ startTime f (r.completed - 1) < T) ∧
    (r.completed = 0 → r.captured = GoValue.nil ∧ r.err = some (timeoutError T)) ∧
    (r.completed < r.calls → startTime f r.completed < T ∧
      T + refreshGracePeriod < startTime f r.completed + (f r.completed).elapsed) ∧
    (r.completed = r.calls →
      (∃ x, cl (f (r.calls - 1)).err = some x ∧ x.Retryable = true) →
      T ≤ startTime f r.calls) := by
  simp only [resourceRetry, Option.map_eq_some'] at h
  obtain ⟨s', hs', rfl⟩ := h
  obtain ⟨-, p2, p3, p4, p5, p6, p7, p8, p9⟩ := retryLoop_wrapper T cl f hcl hnil fuel
    ⟨0, 0, 0, 0, GoValue.nil, none, false⟩ s' rfl rfl rfl (fun h0 => by simp at h0) hs'
  have hcalls : 0 < s'.calls := p4 hT
  refine ⟨hcalls, p2, p3, ?_, ?_, p7, fun heq hret => p9 heq (fun _ => hret)⟩
  · intro hpos
    obtain ⟨h1, h2, h3⟩ := p5 hpos
    refine ⟨h1, ?_, h3⟩
    show retryReturn T s' = _
    unfold retryReturn
    rcases he : s'.resultErr with _ | e
    · rw [p8 hpos he, ← h2, he]
      rfl
    · rw [← h2, he]
  · intro h0
    obtain ⟨h1, h2, h3⟩ := p6 h0
    refine ⟨h1, ?_⟩
    show retryReturn T s' = _
    unfold retryReturn
    simp only at h2
    rw [h2, h3]
    rfl

theorem Minute_pos : 0 < Minute := by decide

/-- C3: in `RetryOnAwsCodes(codes, f)` an attempt is classified retryable exactly
when `f` returned a non-nil error that is an `awserr.Error` whose code is an
element of `codes`; any other non-nil error is classified non-retryable; both
classifications carry the error of `f` unchanged; a nil error gives the nil
classification, on which the retry loop stops with a nil error (for a call that
returns before the wait for it is given up). -/
theorem RetryOnAwsCodes_classification (codes : List String) (err : Error) :
    ((∃ r, RetryOnAwsCodesClassify codes err = some r ∧ r.Retryable = true) ↔
      ∃ e c m, err = some e ∧ asAwsError e.head = some (c, m) ∧ c ∈ codes) ∧
    (∀ e : GoError, err = some e →
      (¬ ∃ c m, asAwsError e.head = some (c, m) ∧ c ∈ codes) →
      RetryOnAwsCodesClassify codes err = some ⟨some e, false⟩) ∧
    (∀ r, RetryOnAwsCodesClassify codes err = some r → r.Err = err ∧ err ≠ none) ∧
    (RetryOnAwsCodesClassify codes err = none ↔ err = none) ∧
    (∀ (f : Nat → Attempt) (fuel : Nat) (s : RetryState GoValue),
      s.now < 1 * Minute →
      s.now + (f s.calls).elapsed ≤ 1 * Minute + refreshGracePeriod →
      (f s.calls).err = none →
      retryLoop (1 * Minute)
        (fun k _ => (RetryOnAwsCodesClassify codes (f k).err, (f k).resp))
        (fun k => (f k).elapsed) (fuel + 1) s =
        some ⟨s.calls + 1, s.completed + 1, s.now + (f s.calls).elapsed, s.wait,
          (f s.calls).resp, none, false⟩ ∧
      retryReturn (1 * Minute) (⟨s.calls + 1, s.completed + 1, s.now + (f s.calls).elapsed,
        s.wait, (f s.calls).resp, none, false⟩ : RetryState GoValue) = none) := by
  refine ⟨?_, ?_, ?_, ?_, ?_⟩
  · cases err with
    | none => simp [RetryOnAwsCodesClassify]
    | some e =>
      rw [RetryOnAwsCodesClassify_some]
      constructor
      · rintro ⟨r, hr, hret⟩
        generalize h : asAwsError e.head = o at hr
        rcases o with _ | ⟨c, m⟩
        · simp only [Option.some.injEq] at hr
          subst hr
          simp at hret
        · by_cases hc : c ∈ codes
          · exact ⟨e, c, m, rfl, h, hc⟩
          · simp only [hc, if_false, Option.some.injEq] at hr
            subst hr
            simp at hret
      · rintro ⟨e', c, m, he, h, hc⟩
        cases he
        exact ⟨⟨some e, true⟩, by simp [h, hc], rfl⟩
  · rintro e rfl hno
    rw [RetryOnAwsCodesClassify_some]
    generalize h : asAwsError e.head = o at hno
    rcases o with _ | ⟨c, m⟩
    · rfl
    · have hc : c ∉ codes := fun hc => hno ⟨c, m, rfl, hc⟩
      simp [hc]
  · intro r hr
    cases err with
    | none => simp [RetryOnAwsCodesClassify] at hr
    | some e =>
      rw [RetryOnAwsCodesClassify_some] at hr
      generalize asAwsError e.head = o at hr
      rcases o with _ | ⟨c, m⟩
      · simp only [Option.some.injEq] at hr
        subst hr
        simp
      · by_cases hc : c ∈ codes <;> simp [hc] at hr <;> subst hr <;> simp
  · exact RetryOnAwsCodesClassify_none codes err
  · intro f fuel s hs hfast hf
    refine ⟨?_, rfl⟩
    rw [retryLoop_succ _ _ _ _ _ hs hfast]
    simp [hf, RetryOnAwsCodesClassify]

/-- C3, at concrete inputs: a throttling error is retryable for a list that
names it, a plain error is not, and a nil error ends the loop. -/
theorem RetryOnAwsCodes_classification_witness :
    (∃ r, RetryOnAwsCodesClassify ["Busy", "Throttling"] (throttledCall 0).err = some r ∧
      r.Retryable = true) ∧
    RetryOnAwsCodesClassify ["Busy", "Throttling"] (some (.leaf ⟨"boom", .other, none⟩)) =
      some ⟨some (.leaf ⟨"boom", .other, none⟩), false⟩ ∧
    retryLoop (1 * Minute)
      (fun k _ => (RetryOnAwsCodesClassify ["Busy", "Throttling"] (flakyCall k).err,
        (flakyCall k).resp))
      (fun k => (flakyCall k).elapsed) (0 + 1) ⟨2, 2, 1700000000, 1000000000, .nil, none,
        false⟩ =
      some ⟨2 + 1, 2 + 1, 1700000000 + (flakyCall 2).elapsed, 1000000000,
        (flakyCall 2).resp, none, false⟩ :=
  ⟨(RetryOnAwsCodes_classification ["Busy", "Throttling"] (throttledCall 0).err).1.2
      ⟨_, "Throttling", "slow down", rfl, rfl, by decide⟩,
   (RetryOnAwsCodes_classification ["Busy", "Throttling"]
      (some (.leaf ⟨"boom", .other, none⟩))).2.1 _ rfl (by simp [asAwsError, GoError.head]),
   ((RetryOnAwsCodes_classification ["Busy", "Throttling"] none).2.2.2.2 flakyCall 0
      ⟨2, 2, 1700000000, 1000000000, .nil, none, false⟩ (by decide) (by decide)
      (by decide)).1⟩

/-- C4: `RetryOnAwsCodes` and `retryOnAwsCode` start at least one call of `f`
and abandon at most the last call they started, namely when it has not returned
30 s after the timeout.  Whenever at least one call has completed, the pair
`(response, error)` they return is the pair returned by the last call that
completed: the error is never replaced, wrapped or dropped, and it is nil
exactly when that call succeeded.  When no call has completed they return a nil
response and the timeout error of `resource.Retry`.  When no call takes longer
than the grace period, every call started completes.  Both wrappers return,
given fuel for the timeout. -/
theorem retry_wrappers_return_last_call (codes : List String) (code : String)
    (f : Nat → Attempt) (fuel : Nat) :
    (∀ out, RetryOnAwsCodes codes f fuel = some out →
      1 ≤ out.calls ∧ out.completed ≤ out.calls ∧ out.calls ≤ out.completed + 1 ∧
      (1 ≤ out.completed →
        out.resp = (f (out.completed - 1)).resp ∧
        out.err = (f (out.completed - 1)).err ∧
        (out.err = none ↔ (f (out.completed - 1)).err = none)) ∧
      (out.completed = 0 →
        out.resp = GoValue.nil ∧ out.err = some (timeoutError (1 * Minute))) ∧
      (out.completed < out.calls →
        startTime f out.completed < 1 * Minute ∧
        1 * Minute + refreshGracePeriod <
          startTime f out.completed + (f out.completed).elapsed) ∧
      ((∀ k, (f k).elapsed ≤ refreshGracePeriod) → out.completed = out.calls)) ∧
    (∀ out, retryOnAwsCode code f fuel = some out →
      1 ≤ out.calls ∧ out.completed ≤ out.calls ∧ out.calls ≤ out.completed + 1 ∧
      (1 ≤ out.completed →
        out.resp = (f (out.completed - 1)).resp ∧
        out.err = (f (out.completed - 1)).err ∧
        (out.err = none ↔ (f (out.completed - 1)).err = none)) ∧
      (out.completed = 0 →
        out.resp = GoValue.nil ∧ out.err = some (timeoutError (2 * Minute))) ∧
      (out.completed < out.calls →
        startTime f out.completed < 2 * Minute ∧
        2 * Minute + refreshGracePeriod <
          startTime f out.completed + (f out.completed).elapsed) ∧
      ((∀ k, (f k).elapsed ≤ refreshGracePeriod) → out.completed = out.calls)) ∧
    (2 * Minute ≤ fuel →
      (∃ out, RetryOnAwsCodes codes f fuel = some out) ∧
      (∃ out, retryOnAwsCode code f fuel = some out)) := by
  refine ⟨?_, ?_, ?_⟩
  · intro out h
    simp only [RetryOnAwsCodes, Option.map_eq_some'] at h
    obtain ⟨r, hr, rfl⟩ := h
    obtain ⟨h1, h2, h3, h4, h5, h6, -⟩ := resourceRetry_wrapper (1 * Minute) (by decide)
      (RetryOnAwsCodesClassify codes) f (RetryOnAwsCodesClassify_carries codes)
      (RetryOnAwsCodesClassify_none codes) fuel r hr
    refine ⟨h1, h2, h3, fun hpos => ?_, h5, h6, fun hall => ?_⟩
    · obtain ⟨a, b, -⟩ := h4 hpos
      exact ⟨a, b, by rw [b]⟩
    · by_contra hne
      have hlt : r.completed < r.calls := by
        show r.completed < r.calls
        have : r.completed ≠ r.calls := hne
        omega
      obtain ⟨a, b⟩ := h6 hlt
      have := hall r.completed
      omega
  · intro out h
    simp only [retryOnAwsCode, Option.map_eq_some'] at h
    obtain ⟨r, hr, rfl⟩ := h
    obtain ⟨h1, h2, h3, h4, h5, h6, -⟩ := resourceRetry_wrapper (2 * Minute) (by decide)
      (retryOnAwsCodeClassify code) f (retryOnAwsCodeClassify_carries code)
      (retryOnAwsCodeClassify_none code) fuel r hr
    refine ⟨h1, h2, h3, fun hpos => ?_, h5, h6, fun hall => ?_⟩
    · obtain ⟨a, b, -⟩ := h4 hpos
      exact ⟨a, b, by rw [b]⟩
    · by_contra hne
      have hlt : r.completed < r.calls := by
        show r.completed < r.calls
        have : r.completed ≠ r.calls := hne
        omega
      obtain ⟨a, b⟩ := h6 hlt
      have := hall r.completed
      omega
  · intro hfuel
    constructor
    · obtain ⟨s', hs'⟩ := retryLoop_isSome (1 * Minute)
        (fun k _ => (RetryOnAwsCodesClassify codes (f k).err, (f k).resp))
        (fun k => (f k).elapsed) fuel ⟨0, 0, 0, 0, GoValue.nil, none, false⟩
        (by show 1 * Minute - 0 ≤ fuel; omega)
      exact ⟨⟨s'.captured, retryReturn (1 * Minute) s', s'.calls, s'.completed⟩,
        by simp only [RetryOnAwsCodes, resourceRetry, hs', Option.map_some']⟩
    · obtain ⟨s', hs'⟩ := retryLoop_isSome (2 * Minute)
        (fun k _ => (retryOnAwsCodeClassify code (f k).err, (f k).resp))
        (fun k => (f k).elapsed) fuel ⟨0, 0, 0, 0, GoValue.nil, none, false⟩
        (by show 2 * Minute - 0 ≤ fuel; omega)
      exact ⟨⟨s'.captured, retryReturn (2 * Minute) s', s'.calls, s'.completed⟩,
        by simp only [retryOnAwsCode, resourceRetry, hs', Option.map_some']⟩

/-- C4, at concrete inputs: a call that is throttled twice and then succeeds
is called three times and its last result is returned; when the second call
takes 200 s it is abandoned and the pair of the first call is returned; when the
first call takes 200 s the timeout error is returned. -/
theorem retry_wrappers_return_last_call_witness :
    RetryOnAwsCodes ["Throttling"] flakyCall (2 * Minute) =
      some ⟨.str "created", none, 3, 3⟩ ∧
    RetryOnAwsCodes ["Throttling"] slowSecondCall (2 * Minute) =
      some ⟨.str "first", (slowSecondCall 0).err, 2, 1⟩ ∧
    ((.str "first" : GoValue) = (slowSecondCall (1 - 1)).resp ∧
      (slowSecondCall 0).err = (slowSecondCall (1 - 1)).err ∧
      ((slowSecondCall 0).err = none ↔ (slowSecondCall (1 - 1)).err = none)) ∧
    RetryOnAwsCodes ["Throttling"] hangingCall (2 * Minute) =
      some ⟨.nil, some (timeoutError (1 * Minute)), 1, 0⟩ ∧
    (∃ out, retryOnAwsCode "Throttling" slowSecondCall (2 * Minute) = some out) :=
  ⟨by decide, by decide,
   ((retry_wrappers_return_last_call ["Throttling"] "Throttling" slowSecondCall
      (2 * Minute)).1 ⟨.str "first", (slowSecondCall 0).err, 2, 1⟩ (by decide)).2.2.2.1
      (le_refl 1),
   by decide,
   ((retry_wrappers_return_last_call ["Throttling"] "Throttling" slowSecondCall
      (2 * Minute)).2.2 (le_refl _)).2⟩

/-- C5: for an `f` that always fails with a matching code and whose calls each
take a positive time, `RetryOnAwsCodes` (deadline one minute) and
`retryOnAwsCode` (deadline two minutes) return; every call they made started
before the deadline, the deadline has passed when they return, and the number
of calls is at most the number of time units of the deadline. -/
theorem retry_wrappers_stop_at_deadline (f : Nat → Attempt)
    (hpos : ∀ k, 0 < (f k).elapsed) :
    (∀ (codes : List String) (fuel : Nat),
      (∀ k, ∃ e c m, (f k).err = some e ∧ asAwsError e.head = some (c, m) ∧ c ∈ codes) →
      1 * Minute ≤ fuel →
      ∃ out, RetryOnAwsCodes codes f fuel = some out ∧ 1 ≤ out.calls ∧
        out.calls ≤ 1 * Minute ∧ (∀ k, k < out.calls → startTime f k < 1 * Minute) ∧
        1 * Minute ≤ startTime f out.calls) ∧
    (∀ (code : String) (fuel : Nat),
      (∀ k, ∃ e m, (f k).err = some e ∧ asAwsError e.head = some (code, m)) →
      2 * Minute ≤ fuel →
      ∃ out, retryOnAwsCode code f fuel = some out ∧ 1 ≤ out.calls ∧
        out.calls ≤ 2 * Minute ∧ (∀ k, k < out.calls → startTime f k < 2 * Minute) ∧
        2 * Minute ≤ startTime f out.calls) := by
  have key : ∀ (T : Nat) (cl : Error → Option RetryError) (r : RetryRun GoValue),
      (1 ≤ r.calls ∧ r.completed ≤ r.calls ∧ r.calls ≤ r.completed + 1 ∧
        (0 < r.completed → r.captured = (f (r.completed - 1)).resp ∧
          r.err = (f (r.completed - 1)).err ∧ startTime f (r.completed - 1) < T) ∧
        (r.completed = 0 → r.captured = GoValue.nil ∧ r.err = some (timeoutError T)) ∧
        (r.completed < r.calls → startTime f r.completed < T ∧
          T + refreshGracePeriod < startTime f r.completed + (f r.completed).elapsed) ∧
        (r.completed = r.calls →
          (∃ x, cl (f (r.calls - 1)).err = some x ∧ x.Retryable = true) →
          T ≤ startTime f r.calls)) →
      (∃ x, cl (f (r.calls - 1)).err = some x ∧ x.Retryable = true) →
      r.calls ≤ T ∧ (∀ k, k < r.calls → startTime f k < T) ∧ T ≤ startTime f r.calls := by
    rintro T cl r ⟨h1, h2, h3, h4, -, h6, h7⟩ hret
    have hlast : startTime f (r.calls - 1) < T := by
      by_cases hc : r.completed = r.calls
      · have := (h4 (by omega)).2.2
        rwa [hc] at this
      · have hlt : r.completed < r.calls := by omega
        have hk : r.calls - 1 = r.completed := by omega
        rw [hk]
        exact (h6 hlt).1
    refine ⟨?_, fun k hk => lt_of_le_of_lt (startTime_mono f (by omega)) hlast, ?_⟩
    · have := le_startTime f hpos (r.calls - 1)
      omega
    · by_cases hc : r.completed = r.calls
      · exact h7 hc hret
      · have hlt : r.completed < r.calls := by omega
        have hk : r.calls = r.completed + 1 := by omega
        have := (h6 hlt).2
        rw [hk]
        simp only [startTime]
        omega
  constructor
  · intro codes fuel hfail hfuel
    obtain ⟨s', hs'⟩ := retryLoop_isSome (1 * Minute)
      (fun k _ => (RetryOnAwsCodesClassify codes (f k).err, (f k).resp))
      (fun k => (f k).elapsed) fuel ⟨0, 0, 0, 0, GoValue.nil, none, false⟩
      (by show 1 * Minute - 0 ≤ fuel; omega)
    have hrun : resourceRetry (1 * Minute)
        (fun k _ => (RetryOnAwsCodesClassify codes (f k).err, (f k).resp))
        (fun k => (f k).elapsed) GoValue.nil fuel =
        some ⟨retryReturn (1 * Minute) s', s'.captured, s'.calls, s'.completed⟩ := by
      simp only [resourceRetry, hs', Option.map_some']
    have hw := resourceRetry_wrapper (1 * Minute) (by decide)
      (RetryOnAwsCodesClassify codes) f (RetryOnAwsCodesClassify_carries codes)
      (RetryOnAwsCodesClassify_none codes) fuel _ hrun
    have hret : ∃ x, RetryOnAwsCodesClassify codes (f (s'.calls - 1)).err = some x ∧
        x.Retryable = true := by
      obtain ⟨e, c, m, he, hh, hc⟩ := hfail (s'.calls - 1)
      refine ⟨⟨some e, true⟩, ?_, rfl⟩
      rw [he, RetryOnAwsCodesClassify_some, hh]
      simp [hc]
    obtain ⟨k1, k2, k3⟩ := key (1 * Minute) (RetryOnAwsCodesClassify codes) _ hw hret
    exact ⟨⟨s'.captured, retryReturn (1 * Minute) s', s'.calls, s'.completed⟩,
      by simp only [RetryOnAwsCodes, hrun, Option.map_some'], hw.1, k1, k2, k3⟩
  · intro code fuel hfail hfuel
    obtain ⟨s', hs'⟩ := retryLoop_isSome (2 * Minute)
      (fun k _ => (retryOnAwsCodeClassify code (f k).err, (f k).resp))
      (fun k => (f k).elapsed) fuel ⟨0, 0, 0, 0, GoValue.nil, none, false⟩
      (by show 2 * Minute - 0 ≤ fuel; omega)
    have hrun : resourceRetry (2 * Minute)
        (fun k _ => (retryOnAwsCodeClassify code (f k).err, (f k).resp))
        (fun k => (f k).elapsed) GoValue.nil fuel =
        some ⟨retryReturn (2 * Minute) s', s'.captured, s'.calls, s'.completed⟩ := by
      simp only [resourceRetry, hs', Option.map_some']
    have hw := resourceRetry_wrapper (2 * Minute) (by decide)
      (retryOnAwsCodeClassify code) f (retryOnAwsCodeClassify_carries code)
      (retryOnAwsCodeClassify_none code) fuel _ hrun
    have hret : ∃ x, retryOnAwsCodeClassify code (f (s'.calls - 1)).err = some x ∧
        x.Retryable = true := by
      obtain ⟨e, m, he, hh⟩ := hfail (s'.calls - 1)
      refine ⟨⟨some e, true⟩, ?_, rfl⟩
      rw [he, retryOnAwsCodeClassify_some, hh]
      simp
    obtain ⟨k1, k2, k3⟩ := key (2 * Minute) (retryOnAwsCodeClassify code) _ hw hret
    exact ⟨⟨s'.captured, retryReturn (2 * Minute) s', s'.calls, s'.completed⟩,
      by simp only [retryOnAwsCode, hrun, Option.map_some'], hw.1, k1, k2, k3⟩

/-- C5, at a concrete input: a call that is always throttled and takes 25
seconds is made three times by `RetryOnAwsCodes` (at 0 s, 25.5 s and 51.5 s)
and five times by `retryOnAwsCode`. -/
theorem retry_wrappers_stop_at_deadline_witness :
    (∀ k, 0 < (throttledCall k).elapsed) ∧
    (∃ out, RetryOnAwsCodes ["Throttling"] throttledCall (1 * Minute) = some out ∧
      1 ≤ out.calls ∧ out.calls ≤ 1 * Minute ∧
      (∀ k, k < out.calls → startTime throttledCall k < 1 * Minute) ∧
      1 * Minute ≤ startTime throttledCall out.calls) ∧
    (RetryOnAwsCodes ["Throttling"] throttledCall (1 * Minute)).map Outcome.calls = some 3 ∧
    (retryOnAwsCode "Throttling" throttledCall (2 * Minute)).map Outcome.calls = some 5 :=
  ⟨fun _ => (by decide : 0 < 25000000000),
   (retry_wrappers_stop_at_deadline throttledCall
      (fun _ => (by decide : 0 < 25000000000))).1 ["Throttling"]
      (1 * Minute) (fun k => ⟨_, "Throttling", "slow down", rfl, rfl, by decide⟩) (le_refl _),
   by decide, by decide⟩

/-- C9: an error of another type that wraps an `awserr.Error` with code `c` is
matched by `isAWSErr(err, c, "")`, but both retry wrappers classify it as
non-retryable: when the first call of `f` returns it (before the wait for the
call is given up), they call `f` once and return that error. -/
theorem wrapped_awserr_matched_but_not_retried (t1 t2 c m : String) (f : Nat → Attempt)
    (fuel : Nat) (h0 : (f 0).err = some (wrappedAwsError t1 t2 c m))
    (hfast : (f 0).elapsed ≤ 1 * Minute + refreshGracePeriod) :
    isAWSErr (some (wrappedAwsError t1 t2 c m)) c "" = true ∧
    RetryOnAwsCodesClassify [c] (some (wrappedAwsError t1 t2 c m)) =
      some ⟨some (wrappedAwsError t1 t2 c m), false⟩ ∧
    retryOnAwsCodeClassify c (some (wrappedAwsError t1 t2 c m)) =
      some ⟨some (wrappedAwsError t1 t2 c m), false⟩ ∧
    RetryOnAwsCodes [c] f (fuel + 1) =
      some ⟨(f 0).resp, some (wrappedAwsError t1 t2 c m), 1, 1⟩ ∧
    retryOnAwsCode c f (fuel + 1) =
      some ⟨(f 0).resp, some (wrappedAwsError t1 t2 c m), 1, 1⟩ := by
  have hcontains : stringsContains m "" = true :=
    (stringsContains_iff _ _).2 List.nil_infix
  have h1 : RetryOnAwsCodesClassify [c] (some (wrappedAwsError t1 t2 c m)) =
      some ⟨some (wrappedAwsError t1 t2 c m), false⟩ := by
    rw [RetryOnAwsCodesClassify_some]
    rfl
  have h2 : retryOnAwsCodeClassify c (some (wrappedAwsError t1 t2 c m)) =
      some ⟨some (wrappedAwsError t1 t2 c m), false⟩ := by
    rw [retryOnAwsCodeClassify_some]
    rfl
  have hgrace : (0 : Nat) < refreshGracePeriod := by decide
  refine ⟨?_, h1, h2, ?_, ?_⟩
  · simp [isAWSErr, errorsAs, errorsAsLoop, wrappedAwsError, matchAwsError, asAwsError,
      hcontains]
  · simp only [RetryOnAwsCodes, resourceRetry]
    rw [retryLoop_succ _ _ _ _ _ (by decide)
      (by show 0 + (f 0).elapsed ≤ 1 * Minute + refreshGracePeriod; omega)]
    simp [h0, h1, retryReturn]
  · simp only [retryOnAwsCode, resourceRetry]
    rw [retryLoop_succ _ _ _ _ _ (by decide)
      (by show 0 + (f 0).elapsed ≤ 2 * Minute + refreshGracePeriod; omega)]
    simp [h0, h2, retryReturn]

/-- C9, at a concrete input. -/
theorem wrapped_awserr_matched_but_not_retried_witness :
    isAWSErr (some (wrappedAwsError "create canary" "Throttling: slow down" "Throttling"
      "slow down")) "Throttling" "" = true ∧
    RetryOnAwsCodes ["Throttling"]
      (fun _ => ⟨.nil, some (wrappedAwsError "create canary" "Throttling: slow down"
        "Throttling" "slow down"), 1000⟩) (0 + 1) =
      some ⟨.nil, some (wrappedAwsError "create canary" "Throttling: slow down" "Throttling"
        "slow down"), 1, 1⟩ :=
  have h := wrapped_awserr_matched_but_not_retried "create canary" "Throttling: slow down"
    "Throttling" "slow down"
    (fun _ => ⟨.nil, some (wrappedAwsError "create canary" "Throttling: slow down"
      "Throttling" "slow down"), 1000⟩) 0 rfl (by decide)
  ⟨h.1, h.2.2.2.1⟩

/-- C10: `retryOnAwsCode(c, f)` classifies the result of an attempt exactly as
`RetryOnAwsCodes([c], f)` does, so the two wrappers are the same retry loop run
with a timeout of two minutes and of one minute; with an empty list
`RetryOnAwsCodes` classifies every non-nil error as non-retryable and calls `f`
exactly once, returning the pair of that call when it returns before the wait
for it is given up. -/
theorem retryOnAwsCode_eq_RetryOnAwsCodes_singleton (c : String) (f : Nat → Attempt)
    (fuel : Nat) :
    (∀ err, retryOnAwsCodeClassify c err = RetryOnAwsCodesClassify [c] err) ∧
    retryOnAwsCode c f fuel =
      (resourceRetry (2 * Minute)
        (fun k _ => (RetryOnAwsCodesClassify [c] (f k).err, (f k).resp))
        (fun k => (f k).elapsed) GoValue.nil fuel).map
        (fun r => ⟨r.captured, r.err, r.calls, r.completed⟩) ∧
    RetryOnAwsCodes [c] f fuel =
      (resourceRetry (1 * Minute)
        (fun k _ => (RetryOnAwsCodesClassify [c] (f k).err, (f k).resp))
        (fun k => (f k).elapsed) GoValue.nil fuel).map
        (fun r => ⟨r.captured, r.err, r.calls, r.completed⟩) ∧
    (∀ e : GoError, RetryOnAwsCodesClassify [] (some e) = some ⟨some e, false⟩) ∧
    (∃ out, RetryOnAwsCodes [] f (fuel + 1) = some out ∧ out.calls = 1) ∧
    ((f 0).elapsed ≤ 1 * Minute + refreshGracePeriod →
      RetryOnAwsCodes [] f (fuel + 1) = some ⟨(f 0).resp, (f 0).err, 1, 1⟩) := by
  have hcl : ∀ err, retryOnAwsCodeClassify c err = RetryOnAwsCodesClassify [c] err := by
    intro err
    cases err with
    | none => rfl
    | some e =>
      rw [retryOnAwsCodeClassify_some, RetryOnAwsCodesClassify_some]
      generalize asAwsError e.head = o
      rcases o with _ | ⟨c', m⟩
      · rfl
      · simp
  have hempty : ∀ e : GoError,
      RetryOnAwsCodesClassify [] (some e) = some ⟨some e, false⟩ := by
    intro e
    rw [RetryOnAwsCodesClassify_some]
    generalize asAwsError e.head = o
    rcases o with _ | ⟨c', m⟩
    · rfl
    · simp
  have hfast : (f 0).elapsed ≤ 1 * Minute + refreshGracePeriod →
      RetryOnAwsCodes [] f (fuel + 1) = some ⟨(f 0).resp, (f 0).err, 1, 1⟩ := by
    intro hle
    simp only [RetryOnAwsCodes, resourceRetry]
    rw [retryLoop_succ _ _ _ _ _ (by decide)
      (by show 0 + (f 0).elapsed ≤ 1 * Minute + refreshGracePeriod; omega)]
    rcases hf : (f 0).err with _ | e
    · simp [hf, RetryOnAwsCodesClassify, retryReturn]
    · simp [hf, hempty, retryReturn]
  refine ⟨hcl, ?_, rfl, hempty, ?_, hfast⟩
  · simp only [retryOnAwsCode, hcl]
  · by_cases hle : (f 0).elapsed ≤ 1 * Minute + refreshGracePeriod
    · exact ⟨_, hfast hle, rfl⟩
    · refine ⟨⟨GoValue.nil, some (timeoutError (1 * Minute)), 1, 0⟩, ?_, rfl⟩
      simp only [RetryOnAwsCodes, resourceRetry]
      rw [retryLoop_abandon _ _ _ _ _ (by decide)
        (by show 1 * Minute + refreshGracePeriod < 0 + (f 0).elapsed; omega)]
      simp [retryReturn]

/-- C10, at a concrete input: with an empty list a throttled call is made once
and its pair returned. -/
theorem retryOnAwsCode_eq_RetryOnAwsCodes_singleton_witness :
    RetryOnAwsCodes [] throttledCall (0 + 1) =
      some ⟨(throttledCall 0).resp, (throttledCall 0).err, 1, 1⟩ :=
  (retryOnAwsCode_eq_RetryOnAwsCodes_singleton "Throttling" throttledCall 0).2.2.2.2.2
    (by decide)

/-! ## Properties of `loadFileContent` -/

/-- C6: `loadFileContent(v)` returns a nil slice and the expansion error
unchanged when expansion fails, without calling the file read; a nil slice and
the read error unchanged when reading the expanded path fails; and otherwise
the bytes read from the expanded path with a nil error. -/
theorem loadFileContent_spec (env : FileEnv) (v : String) :
    (∀ e, env.expand v = .error e → loadFileContent env v = ⟨none, some e, []⟩) ∧
    (∀ filename e, env.expand v = .ok filename → env.readFile filename = .error e →
      loadFileContent env v = ⟨none, some e, [filename]⟩) ∧
    (∀ filename bytes, env.expand v = .ok filename → env.readFile filename = .ok bytes →
      loadFileContent env v = ⟨some bytes, none, [filename]⟩) := by
  refine ⟨?_, ?_, ?_⟩
  · intro e h
    simp [loadFileContent, h]
  · intro filename e h1 h2
    simp [loadFileContent, h1, h2]
  · intro filename bytes h1 h2
    simp [loadFileContent, h1, h2]

/-- C6, at concrete inputs: the three outcomes on `sampleEnv`. -/
theorem loadFileContent_spec_witness :
    loadFileContent sampleEnv "~other/x" =
      ⟨none, some (.leaf ⟨"cannot expand user-specific home dir", .other, none⟩), []⟩ ∧
    loadFileContent sampleEnv "/tmp/missing" =
      ⟨none, some (.leaf ⟨"open /tmp/missing: no such file or directory", .other, none⟩),
        ["/tmp/missing"]⟩ ∧
    loadFileContent sampleEnv "~/key.pem" =
      ⟨some [107, 101, 121], none, ["/home/u/key.pem"]⟩ :=
  ⟨(loadFileContent_spec sampleEnv "~other/x").1 _ rfl,
   (loadFileContent_spec sampleEnv "/tmp/missing").2.1 "/tmp/missing" _ rfl rfl,
   (loadFileContent_spec sampleEnv "~/key.pem").2.2 "/home/u/key.pem" _ rfl rfl⟩

/-! ## Properties of the string-list conversions -/

theorem expandStringListLoop_eq (configured : List GoValue) (vs : List StringPtr) :
    expandStringListLoop configured vs =
      vs ++ (configured.filter isNonEmptyString).filterMap (fun v => (asString v).map some) := by
  induction configured generalizing vs with
  | nil => simp [expandStringListLoop]
  | cons v rest ih =>
    cases v with
    | str s =>
      by_cases hs : s = ""
      · simp [expandStringListLoop, asString, isNonEmptyString, hs, ih]
      · simp [expandStringListLoop, asString, isNonEmptyString, hs, ih, awsString]
    | nil => simp [expandStringListLoop, asString, isNonEmptyString, ih]
    | bool b => simp [expandStringListLoop, asString, isNonEmptyString, ih]
    | int n => simp [expandStringListLoop, asString, isNonEmptyString, ih]
    | other t => simp [expandStringListLoop, asString, isNonEmptyString, ih]

theorem map_derefValue_filterMap (l : List GoValue) (h : ∀ v ∈ l, isNonEmptyString v = true) :
    (l.filterMap (fun v => (asString v).map some)).map derefValue = l := by
  induction l with
  | nil => rfl
  | cons v rest ih =>
    have hv := h v (List.mem_cons_self _ _)
    have hrest := ih (fun w hw => h w (List.mem_cons_of_mem _ hw))
    cases v with
    | str s => simpa [asString, derefValue] using hrest
    | nil => simp [isNonEmptyString] at hv
    | bool b => simp [isNonEmptyString] at hv
    | int n => simp [isNonEmptyString] at hv
    | other t => simp [isNonEmptyString] at hv

/-- C7: the strings pointed to by `expandStringList(configured)` are exactly
the elements of `configured` that are strings other than the empty string, in
their original order; every pointer of the result is non-nil and points to a
non-empty string; the result is never longer than the input. -/
theorem expandStringList_spec (configured : List GoValue) :
    (expandStringList configured).map derefValue = configured.filter isNonEmptyString ∧
    List.Sublist ((expandStringList configured).map derefValue) configured ∧
    (∀ p ∈ expandStringList configured, ∃ s, p = some s ∧ s ≠ "" ∧ GoValue.str s ∈ configured) ∧
    (expandStringList configured).length ≤ configured.length ∧
    some "" ∉ expandStringList configured := by
  have hmap : (expandStringList configured).map derefValue =
      configured.filter isNonEmptyString := by
    rw [expandStringList, expandStringListLoop_eq, List.nil_append]
    exact map_derefValue_filterMap _ (fun v hv => (List.mem_filter.1 hv).2)
  have hmem : ∀ p ∈ expandStringList configured,
      ∃ s, p = some s ∧ s ≠ "" ∧ GoValue.str s ∈ configured := by
    intro p hp
    have hd : derefValue p ∈ configured.filter isNonEmptyString := by
      rw [← hmap]
      exact List.mem_map_of_mem _ hp
    obtain ⟨hin, hne⟩ := List.mem_filter.1 hd
    cases p with
    | none => simp [derefValue, isNonEmptyString] at hne
    | some s =>
      refine ⟨s, rfl, ?_, hin⟩
      simpa [derefValue, isNonEmptyString] using hne
  refine ⟨hmap, ?_, hmem, ?_, ?_⟩
  · rw [hmap]
    exact List.filter_sublist _
  · have := congrArg List.length hmap
    rw [List.length_map] at this
    rw [this]
    exact List.length_filter_le _ _
  · intro h
    obtain ⟨s, hs, hne, -⟩ := hmem _ h
    cases hs
    exact hne rfl

/-- C7, at a concrete input: of a string, a number, an empty string, a nil
value and another string, the two non-empty strings are kept, in order. -/
theorem expandStringList_spec_witness :
    expandStringList [.str "a", .int 3, .str "", .nil, .str "b"] = [some "a", some "b"] ∧
    (∃ s, some "b" = some s ∧ s ≠ "" ∧
      GoValue.str s ∈ [GoValue.str "a", .int 3, .str "", .nil, .str "b"]) :=
  ⟨by decide,
   (expandStringList_spec [.str "a", .int 3, .str "", .nil, .str "b"]).2.2.1 (some "b")
     (by decide)⟩

theorem flattenStringListLoop_map (ss : List String) (vs : List GoValue) :
    flattenStringListLoop (ss.map some) vs = some (vs ++ ss.map GoValue.str) := by
  induction ss generalizing vs with
  | nil => simp [flattenStringListLoop]
  | cons s rest ih => simp [flattenStringListLoop, ih]

/-- C8: for a list of non-nil pointers to the strings `ss`, `flattenStringList`
returns the strings of `ss` one for one, and expanding that result gives
pointers to the strings of `ss` other than the empty string, in order: all of
`ss` when none is empty, and strictly fewer elements otherwise. -/
theorem flatten_expand_roundtrip (ss : List String) :
    flattenStringList (ss.map some) = some (ss.map GoValue.str) ∧
    (ss.map GoValue.str).length = (ss.map some).length ∧
    (∀ i : Nat, (ss.map GoValue.str)[i]? = (ss[i]?).map GoValue.str) ∧
    (flattenStringList (ss.map some)).map expandStringList =
      some ((ss.filter (fun s => s != "")).map some) ∧
    ("" ∉ ss →
      (flattenStringList (ss.map some)).map expandStringList = some (ss.map some)) ∧
    ("" ∈ ss →
      ∃ r, (flattenStringList (ss.map some)).map expandStringList = some r ∧
        r.length < (ss.map some).length) := by
  have hexp : expandStringList (ss.map GoValue.str) =
      (ss.filter (fun s => s != "")).map some := by
    rw [expandStringList, expandStringListLoop_eq, List.nil_append]
    induction ss with
    | nil => rfl
    | cons s rest ih =>
      by_cases hs : s = ""
      · simpa [isNonEmptyString, hs] using ih
      · simpa [isNonEmptyString, hs, asString] using ih
  have hflat : flattenStringList (ss.map some) = some (ss.map GoValue.str) := by
    rw [flattenStringList, flattenStringListLoop_map, List.nil_append]
  refine ⟨hflat, by simp, ?_, ?_, ?_, ?_⟩
  · intro i
    simp
  · rw [hflat, Option.map_some', hexp]
  · intro hno
    rw [hflat, Option.map_some', hexp, List.filter_eq_self.2]
    intro s hs
    have : s ≠ "" := fun h => hno (h ▸ hs)
    simpa using this
  · intro hin
    refine ⟨_, by rw [hflat, Option.map_some', hexp], ?_⟩
    rw [List.length_map, List.length_map]
    apply List.length_filter_lt_length_iff_exists.2
    exact ⟨"", hin, by simp⟩

/-- C8, at concrete inputs: a list without empty strings comes back unchanged,
a list with one loses it. -/
theorem flatten_expand_roundtrip_witness :
    (flattenStringList [some "a", some "b"]).map expandStringList =
      some [some "a", some "b"] ∧
    (flattenStringList [some "a", some "", some "b"]).map expandStringList =
      some [some "a", some "b"] ∧
    (∃ r, (flattenStringList (["a", "", "b"].map some)).map expandStringList = some r ∧
      r.length < (["a", "", "b"].map some).length) :=
  ⟨(flatten_expand_roundtrip ["a", "b"]).2.2.2.2.1 (by decide),
   by decide,
   (flatten_expand_roundtrip ["a", "", "b"]).2.2.2.2.2 (by decide)⟩

end Synthetics
